import Mathlib

/-!
Verification of the moving-average strategy repository
(`src/strategies.py`, `src/profiler.py`).

Prices are modelled as exact rationals (`ℚ`), the idealisation of the
numeric arithmetic in the source.  Fallible operations return `Option`:
`none` models a raised Python exception.
-/

namespace Assignment2

/-- Modelled from the spec: `models.py` is not under `src/`; per the spec a
Tick is an immutable value with a timestamp, an instrument symbol and a
price. -/
structure MarketDataPoint where
  timestamp : Nat
  symbol : String
  price : ℚ

/-- State of `NaiveMovingAverageStrategy` (src/strategies.py): the fixed
window size and the full price history. -/
structure NaiveState where
  window_size : Int
  price_history : List ℚ

/-- State of `WindowedMovingAverageStrategy` (src/strategies.py): the fixed
window size, the bounded deque of recent prices, and the running sum. -/
structure WindowedState where
  window_size : Int
  window : List ℚ
  running_sum : ℚ

/-- Constructor `NaiveMovingAverageStrategy.__init__`: stores the window size and an
empty history; the Python code performs no validation, so construction never
fails. -/
def naiveInit (window_size : Int) : Option NaiveState :=
  some { window_size := window_size, price_history := [] }

/-- Constructor `WindowedMovingAverageStrategy.__init__`: stores the window size, an
empty deque with `maxlen = window_size`, and a zero running sum.
`deque(maxlen = m)` raises `ValueError` for negative `m`; that is the only
failure. -/
def windowedInit (window_size : Int) : Option WindowedState :=
  if window_size < 0 then none
  else some { window_size := window_size, window := [], running_sum := 0 }

/-- Python list slice `lst[-w:]` for an integer `w`, as in
`self.price_history[-self.window_size:]`: for `w > 0` it keeps the last
`min w (length lst)` elements; for `w = 0` the start index `-0` is `0`, so
the whole list is kept; for `w < 0` the slice starts at index `-w` counted
from the front. -/
def pySliceLast (w : Int) (l : List ℚ) : List ℚ :=
  if 0 < w then l.drop (l.length - w.toNat) else l.drop (-w).toNat

/-- Model of `deque.append` under a `maxlen` bound: a deque at capacity drops its
leftmost element on append; with `maxlen = 0` the deque always stays
empty. -/
def dequeAppend (maxlen : Int) (d : List ℚ) (x : ℚ) : List ℚ :=
  if maxlen = 0 then d
  else if (d.length : Int) = maxlen then d.tail ++ [x]
  else d ++ [x]

/-- Method `NaiveMovingAverageStrategy.generate_signals`: append the price, emit
Hold while the history is shorter than the window size, otherwise compare
the price with the mean of the last `window_size` prices.  `none` models the
`ZeroDivisionError` raised when `window_size = 0` (the slice `[-0:]` keeps
the whole history and `sum(window) / 0` raises). -/
def naiveGenerate (s : NaiveState) (tick : MarketDataPoint) :
    Option (List String × NaiveState) :=
  let price_history := s.price_history ++ [tick.price]
  let s1 : NaiveState := { s with price_history := price_history }
  if (price_history.length : Int) < s.window_size then
    some (["Hold"], s1)
  else
    let window := pySliceLast s.window_size price_history
    if s.window_size = 0 then none
    else
      let average := window.sum / (s.window_size : ℚ)
      if tick.price > average then some (["Long"], s1)
      else if tick.price < average then some (["Short"], s1)
      else some (["Hold"], s1)

/-- Method `WindowedMovingAverageStrategy.generate_signals`: if the deque holds
exactly `window_size` elements, subtract its leftmost element from the
running sum (`none` models the `IndexError` raised when the deque is empty,
which happens exactly for `window_size = 0`); append the price (the deque
drops its leftmost element when at capacity), add the price to the running
sum, emit Hold while the deque is shorter than the window size, otherwise
compare the price with `running_sum / window_size` (`none` models the
`ZeroDivisionError` for `window_size = 0`, unreachable because the eviction
step fails first). -/
def windowedGenerate (s : WindowedState) (tick : MarketDataPoint) :
    Option (List String × WindowedState) :=
  let evicted : Option ℚ :=
    if (s.window.length : Int) = s.window_size then
      match s.window with
      | [] => none
      | oldest :: _ => some (s.running_sum - oldest)
    else some s.running_sum
  match evicted with
  | none => none
  | some rsum =>
    let window := dequeAppend s.window_size s.window tick.price
    let running_sum := rsum + tick.price
    let s1 : WindowedState :=
      { s with window := window, running_sum := running_sum }
    if (window.length : Int) < s.window_size then
      some (["Hold"], s1)
    else if s.window_size = 0 then none
    else
      let average := running_sum / (s.window_size : ℚ)
      if tick.price > average then some (["Long"], s1)
      else if tick.price < average then some (["Short"], s1)
      else some (["Hold"], s1)

/-- The per-tick replay loop (`run_strategy` in src/profiler.py and the loop
of the tests), collecting the signal emitted for each tick. -/
def runNaive : NaiveState → List MarketDataPoint →
    Option (List (List String) × NaiveState)
  | s, [] => some ([], s)
  | s, t :: ts =>
    match naiveGenerate s t with
    | none => none
    | some (sig, s1) =>
      match runNaive s1 ts with
      | none => none
      | some (sigs, s2) => some (sig :: sigs, s2)

/-- The per-tick replay loop for the windowed strategy. -/
def runWindowed : WindowedState → List MarketDataPoint →
    Option (List (List String) × WindowedState)
  | s, [] => some ([], s)
  | s, t :: ts =>
    match windowedGenerate s t with
    | none => none
    | some (sig, s1) =>
      match runWindowed s1 ts with
      | none => none
      | some (sigs, s2) => some (sig :: sigs, s2)

/-- Signal sequence of a fresh `NaiveMovingAverageStrategy` over a tick
sequence. -/
def naiveSignals (window_size : Int) (ticks : List MarketDataPoint) :
    Option (List (List String)) :=
  (naiveInit window_size).bind fun s => (runNaive s ticks).map Prod.fst

/-- Signal sequence of a fresh `WindowedMovingAverageStrategy` over a tick
sequence. -/
def windowedSignals (window_size : Int) (ticks : List MarketDataPoint) :
    Option (List (List String)) :=
  (windowedInit window_size).bind fun s => (runWindowed s ticks).map Prod.fst

/-- The last `min k (length l)` elements of `l`. -/
def lastN (k : Nat) (l : List ℚ) : List ℚ := l.drop (l.length - k)

/-- The signal emitted for a tick with price `p` arriving when the prices
seen so far are `ps`, with window size `k`: proved below to agree with both
strategy implementations for `k ≥ 1`. -/
def signalOf (k : Nat) (ps : List ℚ) (p : ℚ) : List String :=
  if ps.length + 1 < k then ["Hold"]
  else
    let average := (lastN k (ps ++ [p])).sum / (k : ℚ)
    if p > average then ["Long"]
    else if p < average then ["Short"]
    else ["Hold"]

/-- Signal sequence for prices `rest` arriving after the prices `ps`. -/
def signalsFrom (k : Nat) : List ℚ → List ℚ → List (List String)
  | _, [] => []
  | ps, p :: rest => signalOf k ps p :: signalsFrom k (ps ++ [p]) rest

/-- The input sizes hard-coded in `benchmark_all` (src/profiler.py). -/
def benchmark_sizes : List Nat := [1000, 10000, 100000]

/-- One measurement record produced by `benchmark_all`: the keys `Strategy`,
`ticks`, `runtime`, `memory` of the dict built in src/profiler.py. -/
structure BenchRecord where
  strategy : String
  ticks : Nat
  runtime : ℚ
  memory : ℚ

/-- Function `benchmark_all` (src/profiler.py), with the wall-clock and memory
measurements abstracted as functions of the strategy name and the input size
(timing and `pympler` introspection are environment effects): for each size,
in order, append the naive record and then the windowed record. -/
def benchmark_all (measure_runtime measure_memory : String → Nat → ℚ) :
    List BenchRecord :=
  benchmark_sizes.foldl
    (fun results size =>
      results ++
        [ { strategy := "NaiveMovingAverageStrategy", ticks := size,
            runtime := measure_runtime "NaiveMovingAverageStrategy" size,
            memory := measure_memory "NaiveMovingAverageStrategy" size },
          { strategy := "WindowedMovingAverageStrategy", ticks := size,
            runtime := measure_runtime "WindowedMovingAverageStrategy" size,
            memory := measure_memory "WindowedMovingAverageStrategy" size } ])
    []

/-- A test tick, as built by the unit tests (symbol `TEST`, varying
price). -/
def tickOf (p : ℚ) : MarketDataPoint :=
  { timestamp := 0, symbol := "TEST", price := p }

/-- Ten ticks at price 100 followed by one tick at price `p`: the concrete
scenario of the signal-correctness tests. -/
def warmupThen (p : ℚ) : List MarketDataPoint :=
  List.replicate 10 (tickOf 100) ++ [tickOf p]

theorem lastN_length (k : Nat) (l : List ℚ) :
    (lastN k l).length = min l.length k := by
  simp [lastN]
  omega

theorem lastN_small (k : Nat) (l : List ℚ) (h : l.length ≤ k) :
    lastN k l = l := by
  unfold lastN
  have h0 : l.length - k = 0 := by omega
  simp [h0]

theorem lastN_append_small (k : Nat) (l : List ℚ) (p : ℚ) (h : l.length < k) :
    lastN k (l ++ [p]) = l ++ [p] := by
  apply lastN_small
  simp only [List.length_append, List.length_cons, List.length_nil]
  omega

theorem lastN_append_big (k : Nat) (hk : 1 ≤ k) (l : List ℚ) (p : ℚ)
    (h : k ≤ l.length) :
    lastN k (l ++ [p]) = (lastN k l).tail ++ [p] := by
  unfold lastN
  rw [List.tail_drop]
  simp only [List.length_append, List.length_cons, List.length_nil]
  rw [List.drop_append_of_le_length (by omega)]
  congr 2
  omega

theorem naiveGenerate_eq (k : Nat) (hk : 1 ≤ k) (ps : List ℚ)
    (t : MarketDataPoint) :
    naiveGenerate { window_size := (k : Int), price_history := ps } t =
      some (signalOf k ps t.price,
        { window_size := (k : Int), price_history := ps ++ [t.price] }) := by
  have hk0 : ¬ ((k : Int) = 0) := by omega
  have hkpos : (0 : Int) < (k : Int) := by omega
  by_cases h : ps.length + 1 < k
  · have hc : (((ps ++ [t.price]).length : Int) < (k : Int)) := by
      simp only [List.length_append, List.length_cons, List.length_nil]
      omega
    simp [naiveGenerate, signalOf, h, hc]
    intro hle
    exfalso
    omega
  · have hc : ¬ (((ps ++ [t.price]).length : Int) < (k : Int)) := by
      simp only [List.length_append, List.length_cons, List.length_nil]
      omega
    have hw : pySliceLast (k : Int) (ps ++ [t.price]) =
        lastN k (ps ++ [t.price]) := by
      simp [pySliceLast, lastN, hkpos]
    simp [naiveGenerate, signalOf, h, hc, hk0, hw]
    rw [if_neg (show ¬ ((ps.length : Int) + 1 < (k : Int)) by omega)]
    split_ifs <;> rfl

theorem windowedGenerate_eq (k : Nat) (hk : 1 ≤ k) (ps : List ℚ)
    (t : MarketDataPoint) :
    windowedGenerate
        { window_size := (k : Int), window := lastN k ps,
          running_sum := (lastN k ps).sum } t =
      some (signalOf k ps t.price,
        { window_size := (k : Int), window := lastN k (ps ++ [t.price]),
          running_sum := (lastN k (ps ++ [t.price])).sum }) := by
  have hk0 : ¬ ((k : Int) = 0) := by omega
  have hlen : (lastN k ps).length = min ps.length k := lastN_length k ps
  by_cases hfull : k ≤ ps.length
  · have hlenk : (lastN k ps).length = k := by omega
    obtain ⟨a, tl, hw⟩ : ∃ a tl, lastN k ps = a :: tl := by
      cases hcase : lastN k ps with
      | nil => rw [hcase] at hlenk; simp at hlenk; omega
      | cons a tl => exact ⟨a, tl, rfl⟩
    have htl : tl.length + 1 = k := by
      rw [hw] at hlenk; simpa using hlenk
    have hlast : lastN k (ps ++ [t.price]) = tl ++ [t.price] := by
      rw [lastN_append_big k hk ps t.price hfull, hw, List.tail_cons]
    rw [hw, hlast]
    have hcond : (((a :: tl).length : Int) = (k : Int)) := by
      simp only [List.length_cons]
      exact_mod_cast htl
    have happ : dequeAppend (k : Int) (a :: tl) t.price = tl ++ [t.price] := by
      simp [dequeAppend, hk0]
      omega
    have hguard : ¬ (((tl ++ [t.price]).length : Int) < (k : Int)) := by
      simp only [List.length_append, List.length_cons, List.length_nil]
      omega
    have hnw : ¬ (ps.length + 1 < k) := by omega
    have hsum : (a :: tl).sum - a + t.price = (tl ++ [t.price]).sum := by
      simp [List.sum_cons, List.sum_append]
    have hevict2 : ((tl.length : Int) + 1 = (k : Int)) := by omega
    have hg2 : ¬ ((tl.length : Int) + 1 < (k : Int)) := by omega
    simp [windowedGenerate, hcond, happ, hguard, hk0, signalOf, hnw, hsum,
      hevict2, hg2, hlast, List.sum_append]
    split_ifs <;> rfl
  · push_neg at hfull
    have hps : lastN k ps = ps := lastN_small k ps (by omega)
    have hlast : lastN k (ps ++ [t.price]) = ps ++ [t.price] :=
      lastN_append_small k ps t.price hfull
    rw [hps, hlast]
    have hcond : ¬ ((ps.length : Int) = (k : Int)) := by omega
    have happ : dequeAppend (k : Int) ps t.price = ps ++ [t.price] := by
      simp [dequeAppend, hk0, hcond]
    by_cases hg : ps.length + 1 < k
    · have hgi : (((ps ++ [t.price]).length : Int) < (k : Int)) := by
        simp only [List.length_append, List.length_cons, List.length_nil]
        omega
      simp [windowedGenerate, hcond, happ, hgi, signalOf, hg, List.sum_append]
      intro hle
      exfalso
      omega
    · have hgi : ¬ (((ps ++ [t.price]).length : Int) < (k : Int)) := by
        simp only [List.length_append, List.length_cons, List.length_nil]
        omega
      simp [windowedGenerate, hcond, happ, hgi, signalOf, hg, hk0,
        hlast, List.sum_append]
      rw [if_neg (show ¬ ((ps.length : Int) + 1 < (k : Int)) by omega)]
      split_ifs <;> rfl

theorem runNaive_eq (k : Nat) (hk : 1 ≤ k) (ticks : List MarketDataPoint) :
    ∀ ps : List ℚ,
      runNaive { window_size := (k : Int), price_history := ps } ticks =
        some (signalsFrom k ps (ticks.map MarketDataPoint.price),
          { window_size := (k : Int),
            price_history := ps ++ ticks.map MarketDataPoint.price }) := by
  induction ticks with
  | nil => intro ps; simp [runNaive, signalsFrom]
  | cons t ts ih =>
    intro ps
    simp only [runNaive, naiveGenerate_eq k hk ps t, ih (ps ++ [t.price]),
      List.map_cons, signalsFrom]
    simp [List.append_assoc]

theorem runWindowed_eq (k : Nat) (hk : 1 ≤ k) (ticks : List MarketDataPoint) :
    ∀ ps : List ℚ,
      runWindowed
          { window_size := (k : Int), window := lastN k ps,
            running_sum := (lastN k ps).sum } ticks =
        some (signalsFrom k ps (ticks.map MarketDataPoint.price),
          { window_size := (k : Int),
            window := lastN k (ps ++ ticks.map MarketDataPoint.price),
            running_sum :=
              (lastN k (ps ++ ticks.map MarketDataPoint.price)).sum }) := by
  induction ticks with
  | nil => intro ps; simp [runWindowed, signalsFrom]
  | cons t ts ih =>
    intro ps
    simp only [runWindowed, windowedGenerate_eq k hk ps t,
      ih (ps ++ [t.price]), List.map_cons, signalsFrom]
    simp [List.append_assoc]

theorem signalsFrom_getElem (k : Nat) :
    ∀ (rest ps : List ℚ) (i : Nat), i < rest.length →
      (signalsFrom k ps rest)[i]? =
        some (signalOf k (ps ++ rest.take i) (rest.getD i 0)) := by
  intro rest
  induction rest with
  | nil => intro ps i h; simp at h
  | cons p r ih =>
    intro ps i h
    cases i with
    | zero => simp [signalsFrom]
    | succ n =>
      simp only [signalsFrom, List.getElem?_cons_succ, List.getD_cons_succ,
        List.take_succ_cons]
      rw [ih (ps ++ [p]) n (by simpa using h)]
      simp [List.append_assoc]

theorem signalOf_one (ps : List ℚ) (p : ℚ) : signalOf 1 ps p = ["Hold"] := by
  unfold signalOf
  rw [if_neg (show ¬ (ps.length + 1 < 1) by omega)]
  have hl : lastN 1 (ps ++ [p]) = [p] := by
    unfold lastN
    simp only [List.length_append, List.length_cons, List.length_nil]
    have h1 : ps.length + 1 - 1 = ps.length := by omega
    rw [h1, List.drop_append_of_le_length (le_refl ps.length),
      List.drop_length]
    simp
  rw [hl]
  simp

theorem signalsFrom_one (rest : List ℚ) :
    ∀ ps : List ℚ,
      signalsFrom 1 ps rest = List.replicate rest.length ["Hold"] := by
  induction rest with
  | nil => intro ps; simp [signalsFrom]
  | cons p r ih =>
    intro ps
    simp [signalsFrom, signalOf_one, ih (ps ++ [p]), List.replicate_succ]

theorem naiveGenerate_price (s : NaiveState) (t1 t2 : MarketDataPoint)
    (h : t1.price = t2.price) : naiveGenerate s t1 = naiveGenerate s t2 := by
  simp only [naiveGenerate, h]

theorem windowedGenerate_price (s : WindowedState) (t1 t2 : MarketDataPoint)
    (h : t1.price = t2.price) :
    windowedGenerate s t1 = windowedGenerate s t2 := by
  simp only [windowedGenerate, h]

theorem runNaive_price :
    ∀ (ticks1 ticks2 : List MarketDataPoint) (s : NaiveState),
      ticks1.map MarketDataPoint.price = ticks2.map MarketDataPoint.price →
      runNaive s ticks1 = runNaive s ticks2 := by
  intro ticks1
  induction ticks1 with
  | nil =>
    intro ticks2 s h
    cases ticks2 with
    | nil => rfl
    | cons b l2 => simp at h
  | cons a l1 ih =>
    intro ticks2 s h
    cases ticks2 with
    | nil => simp at h
    | cons b l2 =>
      simp only [List.map_cons, List.cons.injEq] at h
      obtain ⟨hab, hrest⟩ := h
      simp only [runNaive, naiveGenerate_price s a b hab]
      cases hgen : naiveGenerate s b with
      | none => rfl
      | some pr =>
        obtain ⟨sig, s1⟩ := pr
        simp only [ih l2 s1 hrest]

theorem runWindowed_price :
    ∀ (ticks1 ticks2 : List MarketDataPoint) (s : WindowedState),
      ticks1.map MarketDataPoint.price = ticks2.map MarketDataPoint.price →
      runWindowed s ticks1 = runWindowed s ticks2 := by
  intro ticks1
  induction ticks1 with
  | nil =>
    intro ticks2 s h
    cases ticks2 with
    | nil => rfl
    | cons b l2 => simp at h
  | cons a l1 ih =>
    intro ticks2 s h
    cases ticks2 with
    | nil => simp at h
    | cons b l2 =>
      simp only [List.map_cons, List.cons.injEq] at h
      obtain ⟨hab, hrest⟩ := h
      simp only [runWindowed, windowedGenerate_price s a b hab]
      cases hgen : windowedGenerate s b with
      | none => rfl
      | some pr =>
        obtain ⟨sig, s1⟩ := pr
        simp only [ih l2 s1 hrest]

theorem lastN_nil (k : Nat) : lastN k ([] : List ℚ) = [] := by
  simp [lastN]

theorem naiveSignals_eq (k : Nat) (hk : 1 ≤ k)
    (ticks : List MarketDataPoint) :
    naiveSignals (k : Int) ticks =
      some (signalsFrom k [] (ticks.map MarketDataPoint.price)) := by
  simp [naiveSignals, naiveInit, runNaive_eq k hk ticks []]

theorem windowedSignals_eq (k : Nat) (hk : 1 ≤ k)
    (ticks : List MarketDataPoint) :
    windowedSignals (k : Int) ticks =
      some (signalsFrom k [] (ticks.map MarketDataPoint.price)) := by
  have hw := runWindowed_eq k hk ticks []
  simp only [lastN_nil, List.sum_nil, List.nil_append] at hw
  have hneg : ¬ ((k : Int) < 0) := by omega
  simp [windowedSignals, windowedInit, hneg, hw]

/-- C1: for every tick sequence and every fixed window size `k ≥ 1`, a fresh
`NaiveMovingAverageStrategy` and a fresh `WindowedMovingAverageStrategy`
produce identical signal sequences, position by position (and both runs
complete). -/
theorem c1_strategies_equivalent (k : Nat) (hk : 1 ≤ k)
    (ticks : List MarketDataPoint) :
    naiveSignals (k : Int) ticks = windowedSignals (k : Int) ticks ∧
      (naiveSignals (k : Int) ticks).isSome = true := by
  rw [naiveSignals_eq k hk ticks, windowedSignals_eq k hk ticks]
  exact ⟨rfl, rfl⟩

/-- C1 witness: the equivalence instantiated at window size 2 and one
concrete tick. -/
theorem c1_witness :
    1 ≤ 2 ∧
      (naiveSignals ((2 : Nat) : Int) [tickOf 100] =
          windowedSignals ((2 : Nat) : Int) [tickOf 100] ∧
        (naiveSignals ((2 : Nat) : Int) [tickOf 100]).isSome = true) :=
  ⟨by decide, c1_strategies_equivalent 2 (by decide) [tickOf 100]⟩

/-- C2: for any window size `k ≥ 1`, after every call to `generate_signals`
(equivalently, after a fresh windowed strategy processes any tick sequence)
the `running_sum` field equals the exact sum of the current window contents,
and the window length is at most `k`. -/
theorem c2_running_sum_invariant (k : Nat) (hk : 1 ≤ k)
    (ticks : List MarketDataPoint) :
    ∃ sigs s,
      runWindowed { window_size := (k : Int), window := [], running_sum := 0 }
          ticks = some (sigs, s) ∧
      s.running_sum = s.window.sum ∧ s.window.length ≤ k := by
  have hw := runWindowed_eq k hk ticks []
  simp only [lastN_nil, List.sum_nil, List.nil_append] at hw
  refine ⟨_, _, hw, rfl, ?_⟩
  rw [lastN_length]
  omega

/-- C2 witness: the invariant instantiated at window size 2 and one concrete
tick. -/
theorem c2_witness :
    1 ≤ 2 ∧
      (∃ sigs s,
        runWindowed
            { window_size := ((2 : Nat) : Int), window := [],
              running_sum := 0 } [tickOf 5] = some (sigs, s) ∧
        s.running_sum = s.window.sum ∧ s.window.length ≤ 2) :=
  ⟨by decide, c2_running_sum_invariant 2 (by decide) [tickOf 5]⟩

/-- C3: for any window size `k ≥ 1` and any tick sequence, both strategies
emit `Hold` at every position `i` with `i + 1 < k` (the first `k - 1` ticks),
regardless of the price values. -/
theorem c3_warmup_hold (k i : Nat) (ticks : List MarketDataPoint)
    (hk : 1 ≤ k) (hik : i + 1 < k) (hit : i < ticks.length) :
    ∃ sigs, naiveSignals (k : Int) ticks = some sigs ∧
      windowedSignals (k : Int) ticks = some sigs ∧
      sigs[i]? = some ["Hold"] := by
  refine ⟨signalsFrom k [] (ticks.map MarketDataPoint.price),
    naiveSignals_eq k hk ticks, windowedSignals_eq k hk ticks, ?_⟩
  rw [signalsFrom_getElem k (ticks.map MarketDataPoint.price) [] i
    (by simpa using hit)]
  have hlen2 :
      (([] : List ℚ) ++ (ticks.map MarketDataPoint.price).take i).length + 1
        < k := by
    simp only [List.nil_append, List.length_take]
    omega
  simp [signalOf, hlen2]
  intro hle
  exfalso
  omega

/-- C3 witness: warm-up behavior at window size 3, position 0, three ticks. -/
theorem c3_witness :
    1 ≤ 3 ∧ 0 + 1 < 3 ∧ 0 < [tickOf 100, tickOf 101, tickOf 102].length ∧
      (∃ sigs,
        naiveSignals ((3 : Nat) : Int) [tickOf 100, tickOf 101, tickOf 102] =
            some sigs ∧
        windowedSignals ((3 : Nat) : Int)
            [tickOf 100, tickOf 101, tickOf 102] = some sigs ∧
        sigs[0]? = some ["Hold"]) :=
  ⟨by decide, by decide, by decide,
    c3_warmup_hold 3 0 [tickOf 100, tickOf 101, tickOf 102] (by decide)
      (by decide) (by decide)⟩

/-- C5: after a fresh strategy with window size `k ≥ 1` processes `n` ticks,
the windowed strategy's window holds exactly `min n k` elements and the naive
strategy's price history holds exactly `n` elements. -/
theorem c5_space_bound (k : Nat) (hk : 1 ≤ k)
    (ticks : List MarketDataPoint) :
    ∃ res1 res2,
      runNaive { window_size := (k : Int), price_history := [] } ticks =
          some res1 ∧
      res1.2.price_history.length = ticks.length ∧
      runWindowed { window_size := (k : Int), window := [], running_sum := 0 }
          ticks = some res2 ∧
      res2.2.window.length = min ticks.length k := by
  have hn := runNaive_eq k hk ticks []
  have hw := runWindowed_eq k hk ticks []
  simp only [lastN_nil, List.sum_nil, List.nil_append] at hn hw
  refine ⟨_, _, hn, by simp, hw, ?_⟩
  rw [lastN_length]
  simp

/-- C5 witness: the space bound instantiated at window size 1 and two
concrete ticks. -/
theorem c5_witness :
    1 ≤ 1 ∧
      (∃ res1 res2,
        runNaive { window_size := ((1 : Nat) : Int), price_history := [] }
            [tickOf 3, tickOf 4] = some res1 ∧
        res1.2.price_history.length = [tickOf 3, tickOf 4].length ∧
        runWindowed
            { window_size := ((1 : Nat) : Int), window := [],
              running_sum := 0 } [tickOf 3, tickOf 4] = some res2 ∧
        res2.2.window.length = min [tickOf 3, tickOf 4].length 1) :=
  ⟨by decide, c5_space_bound 1 (by decide) [tickOf 3, tickOf 4]⟩

/-- C6 counterexample: with `window_size = 0` the very first call to
`generate_signals` fails — the eviction guard `len(window) == window_size`
is true on the empty deque, so `window[0]` raises `IndexError`. -/
theorem c6_counterexample : windowedSignals 0 [tickOf 100] = none := by
  rfl

/-- C6 amended: with `window_size = 1` every call to `generate_signals`
completes without dividing by zero and without the eviction step failing,
but with `window_size = 0` the first call fails with an out-of-range access
on the empty window. -/
theorem c6_window_one_safe :
    (∀ ticks : List MarketDataPoint,
      (windowedSignals ((1 : Nat) : Int) ticks).isSome = true) ∧
      windowedSignals 0 [tickOf 101] = none := by
  constructor
  · intro ticks
    rw [windowedSignals_eq 1 (by omega) ticks]
    rfl
  · rfl

/-- C7 counterexample: constructing either strategy with the non-positive
`window_size = 0` succeeds — neither constructor rejects it. -/
theorem c7_counterexample :
    (naiveInit 0).isSome = true ∧ (windowedInit 0).isSome = true := by
  constructor <;> rfl

/-- C7 amended: construction is not rejected for non-positive window sizes:
the naive constructor accepts every integer `window_size`, and the windowed
constructor accepts `window_size = 0` and rejects exactly the negative
values (incidentally, via the `deque` `maxlen` validation). -/
theorem c7_construction_not_validated :
    (∀ w : Int, (naiveInit w).isSome = true) ∧
      (∀ w : Int, ((windowedInit w).isSome = true ↔ 0 ≤ w)) := by
  constructor
  · intro w
    rfl
  · intro w
    by_cases h : w < 0
    · simp [windowedInit, h]
    · simp [windowedInit, h]
      omega

/-- C8: `benchmark_all` returns, for the ascending sizes 1000, 10000,
100000, the naive record immediately followed by the windowed record for
the same size; every record carries the strategy identifier, the tick
count, a runtime and a memory figure (the fields of `BenchRecord`). -/
theorem c8_benchmark_record_order (f g : String → Nat → ℚ) :
    benchmark_all f g =
      benchmark_sizes.flatMap (fun s =>
        [ { strategy := "NaiveMovingAverageStrategy", ticks := s,
            runtime := f "NaiveMovingAverageStrategy" s,
            memory := g "NaiveMovingAverageStrategy" s },
          { strategy := "WindowedMovingAverageStrategy", ticks := s,
            runtime := f "WindowedMovingAverageStrategy" s,
            memory := g "WindowedMovingAverageStrategy" s } ]) ∧
      List.Chain' (fun a b => a < b) benchmark_sizes := by
  constructor
  · rfl
  · simp [benchmark_sizes]

/-- C9: the signal sequence of each strategy is a deterministic function of
the window size and the tick prices alone — two tick sequences that agree on
prices (but may differ in timestamps or symbols) yield identical signal
sequences. -/
theorem c9_signals_price_determined (w : Int)
    (ticks1 ticks2 : List MarketDataPoint)
    (h : ticks1.map MarketDataPoint.price = ticks2.map MarketDataPoint.price) :
    naiveSignals w ticks1 = naiveSignals w ticks2 ∧
      windowedSignals w ticks1 = windowedSignals w ticks2 := by
  constructor
  · simp [naiveSignals, runNaive_price ticks1 ticks2 _ h]
  · unfold windowedSignals
    cases hw : windowedInit w with
    | none => rfl
    | some s => simp [runWindowed_price ticks1 ticks2 s h]

/-- C9 witness: two concrete tick sequences with the same prices but
different timestamps and symbols produce the same signals. -/
theorem c9_witness :
    (([{ timestamp := 0, symbol := "AAA", price := 100 },
       { timestamp := 1, symbol := "AAA", price := 101 }] :
        List MarketDataPoint).map MarketDataPoint.price =
      ([{ timestamp := 5, symbol := "BBB", price := 100 },
        { timestamp := 7, symbol := "CCC", price := 101 }] :
        List MarketDataPoint).map MarketDataPoint.price) ∧
      (naiveSignals 2
          [{ timestamp := 0, symbol := "AAA", price := 100 },
           { timestamp := 1, symbol := "AAA", price := 101 }] =
        naiveSignals 2
          [{ timestamp := 5, symbol := "BBB", price := 100 },
           { timestamp := 7, symbol := "CCC", price := 101 }] ∧
        windowedSignals 2
            [{ timestamp := 0, symbol := "AAA", price := 100 },
             { timestamp := 1, symbol := "AAA", price := 101 }] =
          windowedSignals 2
            [{ timestamp := 5, symbol := "BBB", price := 100 },
             { timestamp := 7, symbol := "CCC", price := 101 }]) :=
  ⟨rfl, c9_signals_price_determined 2 _ _ rfl⟩

/-- C10: with `window_size = 1` both strategies emit `Hold` for every tick
of every sequence: each price is compared with the mean of the one-element
window holding that price itself. -/
theorem c10_window_one_all_hold (ticks : List MarketDataPoint) :
    naiveSignals 1 ticks = some (List.replicate ticks.length ["Hold"]) ∧
      windowedSignals 1 ticks = some (List.replicate ticks.length ["Hold"]) := by
  have h1 : ((1 : Nat) : Int) = (1 : Int) := by norm_num
  have hn := naiveSignals_eq 1 (by omega) ticks
  have hw := windowedSignals_eq 1 (by omega) ticks
  rw [h1] at hn hw
  rw [hn, hw, signalsFrom_one (ticks.map MarketDataPoint.price) []]
  simp

theorem warmup_prices (p : ℚ) : (warmupThen p).map MarketDataPoint.price =
    [100, 100, 100, 100, 100, 100, 100, 100, 100, 100, p] := rfl

theorem naiveSignals_warmup (p : ℚ) :
    naiveSignals 10 (warmupThen p) =
      some (signalsFrom 10 []
        [100, 100, 100, 100, 100, 100, 100, 100, 100, 100, p]) := by
  have h := naiveSignals_eq 10 (by omega) (warmupThen p)
  rw [warmup_prices p] at h
  simpa using h

theorem windowedSignals_warmup (p : ℚ) :
    windowedSignals 10 (warmupThen p) =
      some (signalsFrom 10 []
        [100, 100, 100, 100, 100, 100, 100, 100, 100, 100, p]) := by
  have h := windowedSignals_eq 10 (by omega) (warmupThen p)
  rw [warmup_prices p] at h
  simpa using h

theorem warmup_long :
    signalsFrom 10 [] [100, 100, 100, 100, 100, 100, 100, 100, 100, 100, 110] =
      List.replicate 10 ["Hold"] ++ [["Long"]] := by
  norm_num [signalsFrom, signalOf, lastN, List.sum_cons, List.sum_nil]
  rfl

theorem warmup_short :
    signalsFrom 10 [] [100, 100, 100, 100, 100, 100, 100, 100, 100, 100, 90] =
      List.replicate 10 ["Hold"] ++ [["Short"]] := by
  norm_num [signalsFrom, signalOf, lastN, List.sum_cons, List.sum_nil]
  rfl

theorem warmup_hold_case :
    signalsFrom 10 [] [100, 100, 100, 100, 100, 100, 100, 100, 100, 100, 100] =
      List.replicate 10 ["Hold"] ++ [["Hold"]] := by
  norm_num [signalsFrom, signalOf, lastN, List.sum_cons, List.sum_nil]
  rfl

/-- C4: for the naive strategy with window size `k ≥ 1`, once at least `k`
ticks have been processed (position `i` with `k ≤ i + 1`), the signal is
`Long` if the tick's price exceeds the arithmetic mean of the last `k`
observed prices, `Short` if it is below it, and `Hold` if exactly equal;
concretely, with `k = 10` and prices `[100] * 10` followed by `110` the
final signal is `Long` for both strategies, with final price `90` it is
`Short`, and with final price `100` it is `Hold`. -/
theorem c4_signal_rule (k i : Nat) (ticks : List MarketDataPoint)
    (hk : 1 ≤ k) (hki : k ≤ i + 1) (hit : i < ticks.length) :
    (∃ sigs, naiveSignals (k : Int) ticks = some sigs ∧
      sigs[i]? = some
        (if ((ticks.map MarketDataPoint.price).getD i 0) >
            (lastN k ((ticks.map MarketDataPoint.price).take (i + 1))).sum
              / (k : ℚ) then ["Long"]
         else if ((ticks.map MarketDataPoint.price).getD i 0) <
            (lastN k ((ticks.map MarketDataPoint.price).take (i + 1))).sum
              / (k : ℚ) then ["Short"]
         else ["Hold"])) ∧
    naiveSignals 10 (warmupThen 110) =
      some (List.replicate 10 ["Hold"] ++ [["Long"]]) ∧
    windowedSignals 10 (warmupThen 110) =
      some (List.replicate 10 ["Hold"] ++ [["Long"]]) ∧
    naiveSignals 10 (warmupThen 90) =
      some (List.replicate 10 ["Hold"] ++ [["Short"]]) ∧
    windowedSignals 10 (warmupThen 90) =
      some (List.replicate 10 ["Hold"] ++ [["Short"]]) ∧
    naiveSignals 10 (warmupThen 100) =
      some (List.replicate 10 ["Hold"] ++ [["Hold"]]) ∧
    windowedSignals 10 (warmupThen 100) =
      some (List.replicate 10 ["Hold"] ++ [["Hold"]]) := by
  refine ⟨⟨signalsFrom k [] (ticks.map MarketDataPoint.price),
      naiveSignals_eq k hk ticks, ?_⟩,
    by rw [naiveSignals_warmup 110, warmup_long],
    by rw [windowedSignals_warmup 110, warmup_long],
    by rw [naiveSignals_warmup 90, warmup_short],
    by rw [windowedSignals_warmup 90, warmup_short],
    by rw [naiveSignals_warmup 100, warmup_hold_case],
    by rw [windowedSignals_warmup 100, warmup_hold_case]⟩
  rw [signalsFrom_getElem k (ticks.map MarketDataPoint.price) [] i
    (by simpa using hit)]
  have hlen : (List.take i (ticks.map MarketDataPoint.price)).length = i := by
    simp only [List.length_take, List.length_map]
    omega
  have hp : (ticks.map MarketDataPoint.price).take i ++
        [(ticks.map MarketDataPoint.price).getD i 0] =
      (ticks.map MarketDataPoint.price).take (i + 1) := by
    have hilen : i < (ticks.map MarketDataPoint.price).length := by
      simpa using hit
    rw [List.take_succ, List.getElem?_eq_getElem hilen]
    simp [List.getD, List.getElem?_eq_getElem hilen]
  simp only [List.nil_append, signalOf]
  rw [if_neg (show ¬ ((List.take i
      (ticks.map MarketDataPoint.price)).length + 1 < k) by
    rw [hlen]; omega)]
  simp only [hp]

/-- C4 witness: the signal rule instantiated at window size 1, position 0,
one concrete tick. -/
theorem c4_witness :
    1 ≤ 1 ∧ 1 ≤ 0 + 1 ∧ 0 < [tickOf 100].length ∧
      ((∃ sigs, naiveSignals ((1 : Nat) : Int) [tickOf 100] = some sigs ∧
        sigs[0]? = some
          (if (([tickOf 100].map MarketDataPoint.price).getD 0 0) >
              (lastN 1 (([tickOf 100].map MarketDataPoint.price).take
                (0 + 1))).sum / ((1 : Nat) : ℚ) then ["Long"]
           else if (([tickOf 100].map MarketDataPoint.price).getD 0 0) <
              (lastN 1 (([tickOf 100].map MarketDataPoint.price).take
                (0 + 1))).sum / ((1 : Nat) : ℚ) then ["Short"]
           else ["Hold"])) ∧
      naiveSignals 10 (warmupThen 110) =
        some (List.replicate 10 ["Hold"] ++ [["Long"]]) ∧
      windowedSignals 10 (warmupThen 110) =
        some (List.replicate 10 ["Hold"] ++ [["Long"]]) ∧
      naiveSignals 10 (warmupThen 90) =
        some (List.replicate 10 ["Hold"] ++ [["Short"]]) ∧
      windowedSignals 10 (warmupThen 90) =
        some (List.replicate 10 ["Hold"] ++ [["Short"]]) ∧
      naiveSignals 10 (warmupThen 100) =
        some (List.replicate 10 ["Hold"] ++ [["Hold"]]) ∧
      windowedSignals 10 (warmupThen 100) =
        some (List.replicate 10 ["Hold"] ++ [["Hold"]])) :=
  ⟨by decide, by decide, by decide,
    c4_signal_rule 1 0 [tickOf 100] (by decide) (by decide) (by decide)⟩

end Assignment2
